import Mathlib

/-!
# WebSocket module (`m_websocket.cpp`): frame codec, handshake and session

A shallow embedding of `WebSocketFrame` (`Pack`, `Unmask`, `Unpack`) and of
`WebSocketSession` (`GetServerKey`, `Handshake`, `OnWrite`, `OnRead`, `OnClose`).

* a `std::string` is a `List Byte`, a `char` is a value below 256;
* `int` is the 32-bit two's complement integer: every conversion the source makes to
  `int` goes through `toInt32`;
* the byte order of the target, which decides what `*(uint16_t*)p` and `*(uint64_t*)p`
  read, is a parameter (`Endian`);
* the transport (`SE_Send`, `SE_Recv`) is a parameter (`Transport`).
-/

namespace WebSocket

/-! ## Machine values -/

/-- One `char` of a `std::string`: an eight-bit value. -/
abbrev Byte := Fin 256

/-- Conversion of an unsigned value to `char`: the low eight bits are kept. -/
def toByte (n : Nat) : Byte := ⟨n % 256, Nat.mod_lt n (by decide)⟩

/-- Bitwise exclusive or of two `char`s (`a ^ b` stored back into a `char`). -/
def bxor (a b : Byte) : Byte := toByte (a.val ^^^ b.val)

/-- Conversion of an integer value to the 32-bit `int` (two's complement, modular). -/
def toInt32 (n : Int) : Int := (n + 2147483648) % 4294967296 - 2147483648

/-- The largest `int`. -/
def INT_MAX : Int := 2147483647

/-- Byte order of the target. -/
inductive Endian
  | little
  | big
  deriving DecidableEq, Repr

/-- The number whose base-256 digits, most significant first, are the given bytes. -/
def beValue (bs : List Byte) : Nat := bs.foldl (fun acc b => acc * 256 + b.val) 0

/-- The value of `*(uint16_t*)p` where `b0`, `b1` are the bytes at `p`, `p + 1`. -/
def load16 (e : Endian) (b0 b1 : Byte) : Nat :=
  match e with
  | Endian.big => beValue [b0, b1]
  | Endian.little => beValue [b1, b0]

/-- The value of `*(uint64_t*)p` where `bs` are the eight bytes at `p`. -/
def load64 (e : Endian) (bs : List Byte) : Nat :=
  match e with
  | Endian.big => beValue bs
  | Endian.little => beValue bs.reverse

/-- The byte `buf[i]` of a buffer, for an `int` index. -/
def byteAt (buf : List Byte) (i : Int) : Byte := buf.getD i.toNat 0

/-! ## `WebSocketFrame` -/

/-- `WebSocketFrame::Pack`: the frame for an outbound payload. Payloads of 65536 bytes
or more fall into the empty `FIXME` branch and the empty string is returned. -/
def Pack (buf : List Byte) : List Byte :=
  if buf.length < 126 then
    [toByte 0x81, toByte buf.length] ++ buf
  else if buf.length < 0x10000 then
    [toByte 0x81, toByte 126, toByte (buf.length >>> 8), toByte (buf.length &&& 0xff)] ++ buf
  else
    []

/-- The body of the loop of `Unmask`, from index `i` on, `n` being `(int)buf.length()`. -/
def unmaskLoop (n : Int) (mask_key : Fin 4 → Byte) : Nat → List Byte → List Byte
  | _, [] => []
  | i, b :: bs =>
    (if (i : Int) < n then bxor b (mask_key ⟨i % 4, Nat.mod_lt i (by decide)⟩) else b)
      :: unmaskLoop n mask_key (i + 1) bs

/-- `WebSocketFrame::Unmask`: `for (int i=0;i<(int)buf.length();i++) buf[i] ^= mask_key[i % 4]`. -/
def Unmask (buf : List Byte) (mask_key : Fin 4 → Byte) : List Byte :=
  unmaskLoop (toInt32 buf.length) mask_key 0 buf

/-- The ways `Unpack` can end without returning a string. -/
inductive Fault
  /-- `buf_offset + plen` exceeds `INT_MAX`: signed overflow, undefined behaviour. -/
  | signedOverflow
  /-- A negative `plen` is converted to the size of the string to build:
  `std::length_error`. -/
  | lengthError
  deriving DecidableEq, Repr

/-- Lines 77 to 86 of `Unpack`: the extended payload length. The result is the new
`(plen, buf_offset)`, or `none` where the source returns the empty string. -/
def extendedLength (e : Endian) (frame : List Byte) (buf_len plen buf_offset : Int) :
    Option (Int × Int) :=
  if plen = 126 then
    if buf_len < buf_offset + 2 then none
    else some ((load16 e (byteAt frame buf_offset) (byteAt frame (buf_offset + 1)) : Int),
      buf_offset + 2)
  else if plen = 127 then
    if buf_len < buf_offset + 8 then none
    else some (toInt32 (load64 e ((frame.drop buf_offset.toNat).take 8)), buf_offset + 8)
  else some (plen, buf_offset)

/-- Lines 88 to 93 of `Unpack`: the mask key. The result is the key (when the mask bit is
set) and the new `buf_offset`, or `none` where the source returns the empty string. -/
def readMaskKey (frame : List Byte) (buf_len : Int) (mask : Nat) (buf_offset : Int) :
    Option (Option (Fin 4 → Byte) × Int) :=
  if mask ≠ 0 then
    if buf_len < buf_offset + 4 then none
    else some (some (fun j => byteAt frame (buf_offset + (j.val : Int))), buf_offset + 4)
  else some (none, buf_offset)

/-- Lines 95 to 101 of `Unpack`: the payload slice and its unmasking. -/
def slicePayload (frame : List Byte) (buf_len plen buf_offset : Int)
    (mask_key : Option (Fin 4 → Byte)) : Except Fault (List Byte) :=
  if INT_MAX < buf_offset + plen then Except.error Fault.signedOverflow
  else if buf_len < buf_offset + plen then Except.ok []
  else if plen < 0 then Except.error Fault.lengthError
  else
    let res := (frame.drop buf_offset.toNat).take plen.toNat
    match mask_key with
    | some k => Except.ok (Unmask res k)
    | none => Except.ok res

/-- `WebSocketFrame::Unpack`: the payload of an inbound frame. Every `return ""` of the
source is `Except.ok []`. -/
def Unpack (e : Endian) (frame : List Byte) : Except Fault (List Byte) :=
  let buf_len : Int := toInt32 frame.length
  let buf_offset : Int := 0
  if buf_len < buf_offset + 2 then Except.ok []
  else
    let fin := (byteAt frame buf_offset).val &&& 0x80
    let op := (byteAt frame buf_offset).val &&& 0xf
    let mask := (byteAt frame (buf_offset + 1)).val &&& 0x80
    let plen : Int := (((byteAt frame (buf_offset + 1)).val &&& 0x7f : Nat) : Int)
    let buf_offset := buf_offset + 2
    if fin = 0 then Except.ok []
    else if op < 3 then
      match extendedLength e frame buf_len plen buf_offset with
      | none => Except.ok []
      | some (plen, buf_offset) =>
        match readMaskKey frame buf_len mask buf_offset with
        | none => Except.ok []
        | some (mask_key, buf_offset) => slicePayload frame buf_len plen buf_offset mask_key
    else if op = 0x8 then Except.ok []
    else Except.ok []

deriving instance DecidableEq for Except

/-! ## SHA-1 and base64, the two library routines `GetServerKey` calls -/

/-- The bytes of a string literal of the source (ASCII). -/
def bytes (s : String) : List Byte := s.toList.map (fun c => toByte c.toNat)

/-- Rotation to the left of a 32-bit word. -/
def rotl32 (x n : Nat) : Nat := ((x <<< n) ||| (x >>> (32 - n))) % 4294967296

/-- The eight bytes of a 64-bit value, most significant first. -/
def be64 (n : Nat) : List Byte := (List.range 8).map (fun i => toByte (n >>> (8 * (7 - i))))

/-- The four bytes of a 32-bit word, most significant first. -/
def be32 (n : Nat) : List Byte := (List.range 4).map (fun i => toByte (n >>> (8 * (3 - i))))

/-- SHA-1 padding: the bit `1`, zeros up to 56 modulo 64, the bit length on 64 bits. -/
def sha1Pad (msg : List Byte) : List Byte :=
  msg ++ [toByte 0x80] ++ List.replicate ((119 - msg.length % 64) % 64) (toByte 0)
    ++ be64 (msg.length * 8)

/-- The big-endian 32-bit words of a block. -/
def wordsOf : List Byte → List Nat
  | a :: b :: c :: d :: rest => beValue [a, b, c, d] :: wordsOf rest
  | _ => []

/-- The message schedule: `n` more words after the given ones. -/
def schedule (w : List Nat) : Nat → List Nat
  | 0 => w
  | n + 1 =>
    let v := schedule w n
    let i := v.length
    v ++ [rotl32 (v.getD (i - 3) 0 ^^^ v.getD (i - 8) 0 ^^^ v.getD (i - 14) 0
      ^^^ v.getD (i - 16) 0) 1]

/-- The five chaining words of SHA-1. -/
structure Sha1State where
  a : Nat
  b : Nat
  c : Nat
  d : Nat
  e : Nat
  deriving DecidableEq, Repr

/-- Round `t` of the compression function with schedule word `wt`. -/
def sha1Round (s : Sha1State) (t wt : Nat) : Sha1State :=
  let f :=
    if t < 20 then (s.b &&& s.c) ||| ((s.b ^^^ 0xFFFFFFFF) &&& s.d)
    else if t < 40 then s.b ^^^ s.c ^^^ s.d
    else if t < 60 then (s.b &&& s.c) ||| (s.b &&& s.d) ||| (s.c &&& s.d)
    else s.b ^^^ s.c ^^^ s.d
  let k :=
    if t < 20 then 0x5A827999
    else if t < 40 then 0x6ED9EBA1
    else if t < 60 then 0x8F1BBCDC
    else 0xCA62C1D6
  { a := (rotl32 s.a 5 + f + s.e + k + wt) % 4294967296
    b := s.a
    c := rotl32 s.b 30
    d := s.c
    e := s.d }

/-- The rounds over the schedule words `ws`, the first of them being round `t`. -/
def sha1Rounds (s : Sha1State) : Nat → List Nat → Sha1State
  | _, [] => s
  | t, wt :: ws => sha1Rounds (sha1Round s t wt) (t + 1) ws

/-- The compression of one 64-byte block into the chaining value `h`. -/
def sha1Compress (h : Sha1State) (block : List Byte) : Sha1State :=
  let r := sha1Rounds h 0 (schedule (wordsOf block) 64)
  { a := (h.a + r.a) % 4294967296
    b := (h.b + r.b) % 4294967296
    c := (h.c + r.c) % 4294967296
    d := (h.d + r.d) % 4294967296
    e := (h.e + r.e) % 4294967296 }

/-- The compression of `n` consecutive blocks of `data`. -/
def sha1Blocks : Nat → List Byte → Sha1State → Sha1State
  | 0, _, h => h
  | n + 1, data, h => sha1Blocks n (data.drop 64) (sha1Compress h (data.take 64))

/-- Modelled from the spec: `sha1::calc` of `sha1.h`, which the source includes and calls
but which is not part of the file, computes "the 20-byte SHA-1 digest" of its input;
this is SHA-1 as FIPS 180 defines it. -/
def sha1 (msg : List Byte) : List Byte :=
  let p := sha1Pad msg
  let h := sha1Blocks (p.length / 64) p
    { a := 0x67452301, b := 0xEFCDAB89, c := 0x98BADCFE, d := 0x10325476, e := 0xC3D2E1F0 }
  be32 h.a ++ be32 h.b ++ be32 h.c ++ be32 h.d ++ be32 h.e

/-- The standard base64 alphabet. -/
def b64table : List Byte :=
  bytes "ABCDEFGHIJKLMNOPQRSTUVWXYZabcdefghijklmnopqrstuvwxyz0123456789+/"

/-- The character of the base64 alphabet for the six low bits of `n`. -/
def b64char (n : Nat) : Byte := b64table.getD (n &&& 0x3F) 0

/-- Modelled from the spec: `BinToBase64` of the host, called with the default table and
the pad character `=`, is not part of the file; it is the "standard alphabet, `=`
padding" base64 encoding of the string it is given. -/
def BinToBase64 (pad : Byte) : List Byte → List Byte
  | a :: b :: c :: rest =>
    let buffer := a.val <<< 16 ||| b.val <<< 8 ||| c.val
    b64char (buffer >>> 18) :: b64char (buffer >>> 12) :: b64char (buffer >>> 6)
      :: b64char buffer :: BinToBase64 pad rest
  | [a, b] =>
    let buffer := a.val <<< 16 ||| b.val <<< 8
    [b64char (buffer >>> 18), b64char (buffer >>> 12), b64char (buffer >>> 6)]
      ++ (if pad ≠ 0 then [pad] else [])
  | [a] =>
    let buffer := a.val <<< 16
    [b64char (buffer >>> 18), b64char (buffer >>> 12)]
      ++ (if pad ≠ 0 then [pad, pad] else [])
  | [] => []

/-! ## `WebSocketSession` -/

/-- The number of bytes of a digest, `SHA1_LEN`. -/
def SHA1_LEN : Nat := 20

/-- The constant `UUID` of `GetServerKey`. -/
def UUID : List Byte := bytes "258EAFA5-E914-47DA-95CA-C5AB0DC85B11"

/-- The `std::string` built from a `char*`: the bytes before the first zero byte. -/
def cstring (p : List Byte) : List Byte := p.takeWhile (fun b => b ≠ 0)

/-- `WebSocketSession::GetServerKey`. The digest is written into `hash[0..20)`, `hash[20]`
is set to zero, and `(char*)hash` is what `BinToBase64` receives as its string. -/
def GetServerKey (cli_key : List Byte) : List Byte :=
  let tmp := cli_key ++ UUID
  let hash := (sha1 tmp).take SHA1_LEN ++ [toByte 0]
  BinToBase64 (toByte 61) (cstring hash)

/-- The states of a session. -/
inductive State
  | CONNECTING
  | OPEN
  deriving DecidableEq, Repr

/-- The transport as one call sees it: what `SE_Send` returns for the bytes it is given,
what `SE_Recv` returns, and the contents of the read buffer after `SE_Recv`. -/
structure Transport where
  send : List Byte → Int
  recv : Int
  readBuffer : List Byte

/-- The lines `std::getline` extracts one after the other: the pieces between line feeds,
without a last empty piece. -/
def getlines : List Byte → List (List Byte)
  | [] => []
  | c :: cs =>
    if c = 10 then [] :: getlines cs
    else
      match getlines cs with
      | [] => [[c]]
      | l :: ls => (c :: l) :: ls

/-- Membership in the set `" \n\r\t"`. -/
def isSpace (c : Byte) : Bool := c = 32 || c = 10 || c = 13 || c = 9

/-- The statement `line.erase(line.find_last_not_of(" \n\r\t")+1)`. -/
def rtrim (line : List Byte) : List Byte := (line.reverse.dropWhile isSpace).reverse

/-- The call `line.find(": ")`: the first position of a colon followed by a space. -/
def findSep : List Byte → Option Nat
  | [] => none
  | a :: rest =>
    match rest with
    | [] => none
    | b :: _ => if a = 58 ∧ b = 32 then some 0 else (findSep rest).map (fun p => p + 1)

/-- The function `::tolower` on one `char`. -/
def tolower (c : Byte) : Byte := if 65 ≤ c.val ∧ c.val ≤ 90 then toByte (c.val + 32) else c

/-- The `while` loop of `Handshake` over the lines it reads: the value of `cli_key` when
the loop ends. -/
def scanLines : List (List Byte) → List Byte
  | [] => []
  | line :: rest =>
    let line := rtrim line
    match findSep line with
    | none => scanLines rest
    | some pos =>
      let key := (line.take pos).map tolower
      let val := line.drop (pos + 2)
      if key = bytes "sec-websocket-key" then val else scanLines rest

/-- The response `Handshake` builds for a server key. -/
def handshakeResponse (serv_key : List Byte) : List Byte :=
  bytes "HTTP/1.1 101 Switching Protocols\r\nUpgrade: websocket\r\nConnection: Upgrade\r\nSec-WebSocket-Accept: "
    ++ serv_key ++ bytes "\r\n\r\n"

/-- `WebSocketSession::Handshake`: the state afterwards and the buffers passed to
`SE_Send`, in order. -/
def Handshake (t : Transport) (state : State) (buf : List Byte) : State × List (List Byte) :=
  let cli_key := scanLines (getlines buf)
  if cli_key = [] then (state, [])
  else
    let serv_key := GetServerKey cli_key
    let resp := handshakeResponse serv_key
    let buf_written := t.send resp
    if buf_written ≠ toInt32 resp.length then (state, [resp])
    else (State.OPEN, [resp])

/-- What a call of `OnWrite`, `OnRead` or `OnClose` leaves behind. -/
structure Outcome where
  /-- The state of the session after the call. -/
  state : State
  /-- The value returned, or the fault `Unpack` ended with. -/
  ret : Except Fault Int
  /-- The string argument `sock_buf` after the call. -/
  sock_buf : List Byte
  /-- The buffers passed to `SE_Send`, in order. -/
  sent : List (List Byte)

/-- `WebSocketSession::OnWrite`. -/
def OnWrite (t : Transport) (state : State) (sock_buf : List Byte) : Outcome :=
  if state = State.CONNECTING then
    { state := state, ret := Except.ok 0, sock_buf := sock_buf, sent := [] }
  else
    let buf := Pack sock_buf
    let buf_written := t.send buf
    if buf_written ≠ toInt32 buf.length then
      if buf_written ≥ 0 then
        { state := state, ret := Except.ok (-1), sock_buf := sock_buf, sent := [buf] }
      else
        { state := state, ret := Except.ok (-1), sock_buf := sock_buf, sent := [buf] }
    else
      { state := state, ret := Except.ok 1, sock_buf := sock_buf, sent := [buf] }

/-- `WebSocketSession::OnRead`. -/
def OnRead (e : Endian) (t : Transport) (state : State) (sock_buf : List Byte) : Outcome :=
  let buf_read := t.recv
  if buf_read = 0 then
    { state := state, ret := Except.ok (-1), sock_buf := sock_buf, sent := [] }
  else if buf_read < 0 then
    { state := state, ret := Except.ok (-1), sock_buf := sock_buf, sent := [] }
  else
    let sock_buf := t.readBuffer.take buf_read.toNat
    if state = State.CONNECTING then
      let r := Handshake t state sock_buf
      { state := r.1, ret := Except.ok 0, sock_buf := sock_buf, sent := r.2 }
    else
      match Unpack e sock_buf with
      | Except.ok res => { state := state, ret := Except.ok 1, sock_buf := res, sent := [] }
      | Except.error f => { state := state, ret := Except.error f, sock_buf := sock_buf, sent := [] }

/-- `WebSocketSession::OnClose`: the body is empty, the state stays as it is. -/
def OnClose (state : State) : State := state

/-- A call of the host into the session, with the transport as that call sees it and the
string argument it passes. -/
inductive Call
  | onRead (t : Transport) (sock_buf : List Byte)
  | onWrite (t : Transport) (sock_buf : List Byte)
  | onClose

/-- The state of the session after one call. -/
def step (e : Endian) (state : State) : Call → State
  | Call.onRead t sock_buf => (OnRead e t state sock_buf).state
  | Call.onWrite t sock_buf => (OnWrite t state sock_buf).state
  | Call.onClose => OnClose state

/-- The state of the session after a sequence of calls. -/
def runCalls (e : Endian) : State → List Call → State
  | state, [] => state
  | state, c :: cs => runCalls e (step e state c) cs

/-- The opening request of the worked example of RFC 6455. -/
def sampleRequest : List Byte :=
  bytes "GET /chat HTTP/1.1\r\nHost: server.example.com\r\nUpgrade: websocket\r\nConnection: Upgrade\r\nSec-WebSocket-Key: dGhlIHNhbXBsZSBub25jZQ==\r\nOrigin: http://example.com\r\nSec-WebSocket-Protocol: chat, superchat\r\nSec-WebSocket-Version: 13\r\n\r\n"

/-- A transport that reports every send as complete and has received `sampleRequest`. -/
def sampleTransport : Transport :=
  { send := fun buf => (buf.length : Int)
    recv := (sampleRequest.length : Int)
    readBuffer := sampleRequest }

/-- `WebSocketSession::reset`: the state it assigns. -/
def reset : State := State.CONNECTING

/-- The constructor `WebSocketSession()`: the state of a new session, which `reset()`
sets. -/
def WebSocketSession : State := reset

/-- The messages `Handshake` passes to `log`, in order. -/
def HandshakeLog (t : Transport) (buf : List Byte) : List String :=
  let cli_key := scanLines (getlines buf)
  if cli_key = [] then ["WebSocketSession::Handshake(): Client key was not provided"]
  else
    let serv_key := GetServerKey cli_key
    let resp := handshakeResponse serv_key
    let buf_written := t.send resp
    if buf_written ≠ toInt32 resp.length then
      ["WebSocketSession::Handshake(): Could not send the entire response"]
    else []

/-- The client key `Handshake` goes on with, or `none` where it logs that no key was
provided and returns (`cli_key.empty()`). -/
def clientKey (buf : List Byte) : Option (List Byte) :=
  let cli_key := scanLines (getlines buf)
  if cli_key = [] then none else some cli_key

/-! ## The request format the claims are stated in -/

/-- The header name of a line: the part before the first `": "`, in lower case; `none`
for a line without that separator. -/
def headerName (line : List Byte) : Option (List Byte) :=
  (findSep line).map (fun pos => (line.take pos).map tolower)

/-- The buffer made of the given lines, each followed by `"\r\n"`. -/
def crlfLines : List (List Byte) → List Byte
  | [] => []
  | line :: rest => line ++ [13, 10] ++ crlfLines rest

/-- The pieces of a buffer between line feeds, the last piece included when it is
empty. -/
def referenceLines : List Byte → List (List Byte)
  | [] => [[]]
  | c :: cs =>
    if c = 10 then [] :: referenceLines cs
    else
      match referenceLines cs with
      | [] => [[c]]
      | l :: ls => (c :: l) :: ls

/-- The reference parse over the lines of a request: each line is split once at the
first `": "` into name and value, lines without the separator are skipped, and the first
line whose name is `sec-websocket-key` up to case gives its value with the trailing
whitespace trimmed; `none` is `NotFound`. -/
def referenceScan : List (List Byte) → Option (List Byte)
  | [] => none
  | line :: rest =>
    match findSep line with
    | none => referenceScan rest
    | some pos =>
      if (line.take pos).map tolower = bytes "sec-websocket-key" then
        some (rtrim (line.drop (pos + 2)))
      else referenceScan rest

/-- The reference parse of a request buffer. -/
def ParseClientKey (buf : List Byte) : Option (List Byte) :=
  referenceScan (referenceLines buf)

/-- The reference parse that also skips the lines whose value is empty once its trailing
whitespace is trimmed. -/
def referenceScanSkipBlank : List (List Byte) → Option (List Byte)
  | [] => none
  | line :: rest =>
    match findSep line with
    | none => referenceScanSkipBlank rest
    | some pos =>
      if rtrim (line.drop (pos + 2)) = [] then referenceScanSkipBlank rest
      else if (line.take pos).map tolower = bytes "sec-websocket-key" then
        some (rtrim (line.drop (pos + 2)))
      else referenceScanSkipBlank rest

/-- A transport that has received `chunk` and reports every send as complete. -/
def transportOf (chunk : List Byte) : Transport :=
  { send := fun buf => (buf.length : Int)
    recv := (chunk.length : Int)
    readBuffer := chunk }

/-! ## Theorems -/

theorem val_toByte (n : Nat) : (toByte n).val = n % 256 := rfl

theorem toInt32_of_lt (n : Nat) (h : n < 2147483648) : toInt32 (n : Int) = (n : Int) := by
  unfold toInt32; omega

theorem small_length_bits : ∀ n < 126, (n % 256) &&& 0x80 = 0 ∧ (n % 256) &&& 0x7f = n := by
  decide

theorem bxor_bxor (a b : Byte) : bxor (bxor a b) b = a := by
  apply Fin.ext
  have ha : a.val < 256 := a.isLt
  have hx : a.val ^^^ b.val < 256 := @Nat.xor_lt_two_pow a.val b.val 8 a.isLt b.isLt
  simp only [bxor, val_toByte]
  rw [Nat.mod_eq_of_lt hx, Nat.xor_assoc, Nat.xor_self, Nat.xor_zero]
  exact Nat.mod_eq_of_lt ha

theorem length_unmaskLoop (n : Int) (K : Fin 4 → Byte) :
    ∀ (l : List Byte) (i : Nat), (unmaskLoop n K i l).length = l.length := by
  intro l
  induction l with
  | nil => intro i; rfl
  | cons b bs ih => intro i; simp [unmaskLoop, ih]

theorem length_Unmask (P : List Byte) (K : Fin 4 → Byte) : (Unmask P K).length = P.length :=
  length_unmaskLoop _ K P 0

theorem unmaskLoop_unmaskLoop (n : Int) (K : Fin 4 → Byte) :
    ∀ (l : List Byte) (i : Nat), unmaskLoop n K i (unmaskLoop n K i l) = l := by
  intro l
  induction l with
  | nil => intro i; rfl
  | cons b bs ih =>
    intro i
    by_cases h : (i : Int) < n <;> simp [unmaskLoop, h, ih, bxor_bxor]

theorem Unmask_Unmask (P : List Byte) (K : Fin 4 → Byte) : Unmask (Unmask P K) K = P := by
  unfold Unmask
  rw [length_unmaskLoop]
  exact unmaskLoop_unmaskLoop _ K P 0

theorem getElem?_unmaskLoop (n : Int) (K : Fin 4 → Byte) :
    ∀ (l : List Byte) (i j : Nat), (unmaskLoop n K i l)[j]? =
      (l[j]?).map (fun b => if ((i + j : Nat) : Int) < n
        then bxor b (K ⟨(i + j) % 4, Nat.mod_lt _ (by decide)⟩) else b) := by
  intro l
  induction l with
  | nil => intro i j; simp [unmaskLoop]
  | cons b bs ih =>
    intro i j
    cases j with
    | zero => simp [unmaskLoop]
    | succ j =>
      simp only [unmaskLoop, List.getElem?_cons_succ, ih]
      have : i + 1 + j = i + (j + 1) := by omega
      simp only [this]

theorem getElem?_Unmask (P : List Byte) (K : Fin 4 → Byte) (h : P.length < 2147483648)
    (i : Nat) : (Unmask P K)[i]? =
      (P[i]?).map (fun b => bxor b (K ⟨i % 4, Nat.mod_lt _ (by decide)⟩)) := by
  unfold Unmask
  rw [getElem?_unmaskLoop, toInt32_of_lt _ h]
  by_cases hi : i < P.length
  · have h0 : ((0 + i : Nat) : Int) < (P.length : Int) := by omega
    have h1 : ¬ (P.length ≤ i) := by omega
    simp [List.getElem?_eq_getElem hi, h0, h1]
  · simp [List.getElem?_eq_none (Nat.le_of_not_lt hi)]

theorem Unmask_head_of_not_pos (b : Byte) (bs : List Byte) (K : Fin 4 → Byte)
    (h : ¬ ((0 : Int) < toInt32 ((b :: bs).length : Nat))) : (Unmask (b :: bs) K)[0]? = some b := by
  unfold Unmask
  generalize toInt32 ((b :: bs).length : Nat) = n at h
  simp [unmaskLoop, h]

/-! ### The frame codec -/

/-- C1: for every payload `P` of fewer than 126 bytes, the empty payload included, and on
every target, `Unpack (Pack P)` returns `P`. -/
theorem unpack_pack_of_length_lt_126 (e : Endian) (P : List Byte) (h : P.length < 126) :
    Unpack e (Pack P) = Except.ok P := by
  obtain ⟨hb1, hb2⟩ := small_length_bits P.length h
  have h1 : toInt32 ((P.length : Int) + 1 + 1) = (P.length : Int) + 2 := by
    unfold toInt32; omega
  have h2 : ¬ ((P.length : Int) = 126) := by omega
  have h3 : ¬ ((P.length : Int) = 127) := by omega
  have h4 : ¬ (INT_MAX < 2 + (P.length : Int)) := by unfold INT_MAX; omega
  simp [Pack, h, Unpack, byteAt, val_toByte, h1, extendedLength, readMaskKey, slicePayload,
    hb1, hb2, h2, h3, h4, show (129 &&& 15 : Nat) = 1 from rfl]
  have h5 : ¬ ((P.length : Int) < 0) := by omega
  have h6 : ¬ ((P.length : Int) + 2 < 2 + (P.length : Int)) := by omega
  simp [h5, h6]


/-- C1, at the payload `Hello`. -/
theorem unpack_pack_of_length_lt_126_witness :
    (bytes "Hello").length < 126 ∧
      Unpack Endian.little (Pack (bytes "Hello")) = Except.ok (bytes "Hello") :=
  ⟨by decide, unpack_pack_of_length_lt_126 Endian.little (bytes "Hello") (by decide)⟩

theorem load16_big_pack (n : Nat) (h : n < 65536) :
    load16 Endian.big (toByte (n >>> 8)) (toByte (n &&& 0xff)) = n := by
  have h1 : n &&& 0xff = n % 256 := Nat.and_pow_two_sub_one_eq_mod n 8
  have h2 : n >>> 8 = n / 256 := Nat.shiftRight_eq_div_pow n 8
  simp only [load16, beValue, List.foldl, val_toByte, h1, h2]
  omega

/-- On a big-endian target the round trip holds for the payloads that need the 16-bit
extended length. -/
theorem unpack_pack_big_endian (P : List Byte) (h1 : 126 ≤ P.length) (h2 : P.length < 65536) :
    Unpack Endian.big (Pack P) = Except.ok P := by
  have hl := load16_big_pack P.length h2
  have h3 : ¬ (P.length < 126) := by omega
  have h4 : toInt32 ((P.length : Int) + 1 + 1 + 1 + 1) = (P.length : Int) + 4 := by
    unfold toInt32; omega
  have h5 : ¬ ((P.length : Int) + 4 < 2) := by omega
  have h6 : ¬ ((P.length : Int) + 4 < 2 + 2) := by omega
  have h7 : ¬ (INT_MAX < 2 + 2 + (P.length : Int)) := by unfold INT_MAX; omega
  have h8 : ¬ ((P.length : Int) + 4 < 2 + 2 + (P.length : Int)) := by omega
  have h9 : ¬ ((P.length : Int) < 0) := by omega
  simp [Pack, h3, h2, Unpack, byteAt, val_toByte, h4, h5, h6, extendedLength, readMaskKey,
    slicePayload, show (129 &&& 15 : Nat) = 1 from rfl, show (126 &&& 127 : Nat) = 126 from rfl,
    show (126 &&& 128 : Nat) = 0 from rfl, hl, h7, h8, h9]
  split_ifs <;> first | rfl | (exfalso; unfold INT_MAX at *; omega)

set_option maxRecDepth 1000000 in
/-- C2: on a little-endian target the round trip fails for a payload of 126 zero bytes.
`Pack` writes the length as `00 7E`, the `uint16_t` load of `Unpack` reads `0x7E00`, more
than the buffer holds, and `Unpack` returns the empty string. For 256 zero bytes `Pack`
writes `01 00`, the load reads 1, and `Unpack` returns one byte of the payload. -/
theorem unpack_pack_little_endian_126 :
    Unpack Endian.little (Pack (List.replicate 126 0)) = Except.ok [] ∧
      Unpack Endian.little (Pack (List.replicate 256 0)) = Except.ok [0] := by
  decide

/-- C3: for a payload of 65536 zero bytes `Pack` returns the empty string, the value of
the variable `res` that the `FIXME` branch leaves untouched; there is no error value. -/
theorem Pack_65536_empty : Pack (List.replicate 65536 0) = [] := by
  unfold Pack
  rw [List.length_replicate, if_neg (by decide), if_neg (by decide)]

/-- C4, as amended: applying `Unmask` twice with the same key gives the string back and
`Unmask` keeps the length, for every string; for a string of fewer than `2^31` bytes one
application changes byte `i` to `P[i] XOR K[i mod 4]`. -/
theorem Unmask_involution (P : List Byte) (K : Fin 4 → Byte) :
    Unmask (Unmask P K) K = P ∧ (Unmask P K).length = P.length ∧
      (P.length < 2147483648 → ∀ i : Nat, (Unmask P K)[i]? =
        (P[i]?).map (fun b => bxor b (K ⟨i % 4, Nat.mod_lt i (by decide)⟩))) :=
  ⟨Unmask_Unmask P K, length_Unmask P K, fun h i => getElem?_Unmask P K h i⟩

/-- C4, at the string `Hello` and the key `37 fa 21 3d`. -/
theorem Unmask_involution_witness :
    (bytes "Hello").length < 2147483648 ∧
      Unmask (bytes "Hello") ![0x37, 0xfa, 0x21, 0x3d] = [0x7f, 0x9f, 0x4d, 0x51, 0x58] ∧
      (Unmask (bytes "Hello") ![0x37, 0xfa, 0x21, 0x3d])[4]? = some (bxor 0x6f 0x37) :=
  ⟨by decide, by decide,
    ((Unmask_involution (bytes "Hello") ![0x37, 0xfa, 0x21, 0x3d]).2.2 (by decide) 4).trans
      (by decide)⟩

/-- C4, as stated, fails for a string of `2^31` zero bytes and the key `01 01 01 01`:
`(int)buf.length()` is negative, the loop body never runs, and byte 0 stays `00` where
the claim has `00 XOR 01`. -/
theorem Unmask_of_length_two_pow_31 :
    ¬ ((Unmask (List.replicate 2147483648 0) (fun _ => 1))[0]? =
      ((List.replicate 2147483648 (0 : Byte))[0]?).map
        (fun b => bxor b ((fun _ => 1 : Fin 4 → Byte) ⟨0 % 4, Nat.mod_lt 0 (by decide)⟩))) := by
  have hP : List.replicate 2147483648 (0 : Byte) = 0 :: List.replicate 2147483647 0 :=
    List.replicate_succ (0 : Byte) 2147483647
  have hn : ¬ ((0 : Int) < toInt32 ((2147483647 + 1 : Nat) : Int)) := by decide
  rw [hP, Unmask_head_of_not_pos 0 _ _
    (by rw [List.length_cons, List.length_replicate]; exact hn), List.getElem?_cons_zero]
  decide

/-- C9: for every buffer of at least two bytes whose first byte has the bit `0x80` clear,
`Unpack` returns the empty string, the value of its `return ""` for fragmented messages,
whatever the other bits and bytes are, on every target. -/
theorem Unpack_fin_clear (e : Endian) (b0 b1 : Byte) (rest : List Byte)
    (h : b0.val &&& 0x80 = 0) : Unpack e (b0 :: b1 :: rest) = Except.ok [] := by
  unfold Unpack
  simp only [byteAt]
  split_ifs <;> first | rfl | (exfalso; simp_all)

/-- C9, at a buffer with opcode 1, mask bit set and five bytes after the header. -/
theorem Unpack_fin_clear_witness :
    (0x01 : Byte).val &&& 0x80 = 0 ∧
      Unpack Endian.little (0x01 :: 0x85 :: [1, 2, 3, 4, 5]) = Except.ok [] :=
  ⟨by decide, Unpack_fin_clear Endian.little 0x01 0x85 [1, 2, 3, 4, 5] (by decide)⟩

theorem byteAt_zero (a : Byte) (l : List Byte) : byteAt (a :: l) 0 = a := rfl

theorem byteAt_one (a b : Byte) (l : List Byte) : byteAt (a :: b :: l) 1 = b := rfl

theorem masked_length_bits : ∀ n < 126,
    ((0x80 ||| n) % 256) &&& 0x80 = 0x80 ∧ ((0x80 ||| n) % 256) &&& 0x7f = n := by
  decide

theorem Unmask_of_masked (P M : List Byte) (K : Fin 4 → Byte) (h : P.length < 2147483648)
    (hM : M.length = P.length)
    (hMi : ∀ i : Nat, M[i]? =
      (P[i]?).map (fun b => bxor b (K ⟨i % 4, Nat.mod_lt i (by decide)⟩))) :
    Unmask M K = P := by
  apply List.ext_getElem?
  intro i
  rw [getElem?_Unmask M K (by omega) i, hMi i]
  cases P[i]? <;> simp [bxor_bxor]

/-- C7: for every payload `P` of fewer than 126 bytes, every key `K` and every opcode 1 or
2, `Unpack` returns `P` for the frame made of the bytes `0x80|op`, `0x80|len(P)`, the four
bytes of `K`, and the bytes `M` with `M[i] = P[i] XOR K[i mod 4]`, on every target. -/
theorem Unpack_masked_frame (e : Endian) (P M : List Byte) (K : Fin 4 → Byte) (op : Nat)
    (hlen : P.length < 126) (hop : op = 1 ∨ op = 2) (hM : M.length = P.length)
    (hMi : ∀ i : Nat, M[i]? =
      (P[i]?).map (fun b => bxor b (K ⟨i % 4, Nat.mod_lt i (by decide)⟩))) :
    Unpack e ([toByte (0x80 ||| op), toByte (0x80 ||| P.length)] ++ [K 0, K 1, K 2, K 3] ++ M)
      = Except.ok P := by
  obtain ⟨hb1, hb2⟩ := masked_length_bits P.length hlen
  have hU := Unmask_of_masked P M K (by omega) hM hMi
  have hop1 : ((0x80 ||| op) % 256) &&& 0x80 ≠ 0 ∧ ((0x80 ||| op) % 256) &&& 0xf < 3 := by
    rcases hop with rfl | rfl <;> decide
  have hK : ∀ a b : Byte, (fun j : Fin 4 =>
      byteAt (a :: b :: K 0 :: K 1 :: K 2 :: K 3 :: M) (2 + (j.val : Int))) = K := by
    intro a b; funext j; fin_cases j <;> rfl
  have h1 : toInt32 ((M.length : Int) + 1 + 1 + 1 + 1 + 1 + 1) = (P.length : Int) + 6 := by
    unfold toInt32; omega
  have h2 : ¬ ((P.length : Int) = 126) := by omega
  have h3 : ¬ ((P.length : Int) = 127) := by omega
  simp [Unpack, val_toByte, extendedLength, readMaskKey, slicePayload, hb1, hb2, hop1, h1,
    byteAt_zero, byteAt_one, h2, h3, hK]
  have h4 : ¬ ((P.length : Int) + 6 < 2) := by omega
  have h5 : ¬ ((P.length : Int) < 0) := by omega
  have h6 : ¬ (INT_MAX < 6 + (P.length : Int)) := by unfold INT_MAX; omega
  have h7 : ¬ ((P.length : Int) + 6 < 6 + (P.length : Int)) := by omega
  have h8 : List.take P.length M = M := by rw [← hM]; exact List.take_length M
  simp [h4, h5, h6, h7, h8, hU]

/-- C7, at the masked text frame of `Hello` with the key `37 fa 21 3d`. -/
theorem Unpack_masked_frame_witness :
    (bytes "Hello").length < 126 ∧
      Unpack Endian.little ([toByte (0x80 ||| 1), toByte (0x80 ||| (bytes "Hello").length)]
        ++ [0x37, 0xfa, 0x21, 0x3d] ++ [0x7f, 0x9f, 0x4d, 0x51, 0x58]) = Except.ok (bytes "Hello") :=
  ⟨by decide, Unpack_masked_frame Endian.little (bytes "Hello") [0x7f, 0x9f, 0x4d, 0x51, 0x58]
    ![0x37, 0xfa, 0x21, 0x3d] 1 (by decide) (Or.inl rfl) (by decide)
    (by
      intro i
      rcases Nat.lt_or_ge i 5 with h | h
      · interval_cases i <;> decide
      · rw [List.getElem?_eq_none (by simpa using h), List.getElem?_eq_none (by simpa [bytes] using h)]
        rfl)⟩

/-- C8, as stated, fails for the buffer `81 05 41`, whose header declares five payload
bytes and which holds one: the result of `Unpack` is its result for the complete
zero-length frame `81 00`, on both targets. -/
theorem Unpack_incomplete_eq_empty_frame :
    Unpack Endian.little [0x81, 0x05, 0x41] = Unpack Endian.little [0x81, 0x00] ∧
      Unpack Endian.big [0x81, 0x05, 0x41] = Unpack Endian.big [0x81, 0x00] := by
  decide

theorem Unpack_short_7bit (e : Endian) (b0 b1 : Byte) (rest : List Byte)
    (hfin : b0.val &&& 0x80 ≠ 0) (hop : b0.val &&& 0xf < 3) (hlen : b1.val &&& 0x7f < 126)
    (h : rest.length < (if b1.val &&& 0x80 ≠ 0 then 4 else 0) + (b1.val &&& 0x7f)) :
    Unpack e (b0 :: b1 :: rest) = Except.ok [] := by
  have h0 : rest.length < 130 := by split_ifs at h <;> omega
  have h1 : toInt32 ((rest.length : Int) + 1 + 1) = (rest.length : Int) + 2 := by
    unfold toInt32; omega
  have h2 : ¬ (((b1.val &&& 0x7f : Nat) : Int) = 126) := by omega
  have h3 : ¬ (((b1.val &&& 0x7f : Nat) : Int) = 127) := by omega
  have h4 : ¬ ((rest.length : Int) + 2 < 2) := by omega
  by_cases hm : b1.val &&& 0x80 = 0
  · rw [if_neg (not_not.mpr hm)] at h
    simp only [Unpack, byteAt_zero, byteAt_one, extendedLength, readMaskKey, slicePayload,
      List.length_cons, Nat.cast_add, Nat.cast_one, h1, h2, h3, h4, hfin, hop, zero_add,
      if_true, if_false, INT_MAX, hm, ne_eq, not_true_eq_false, not_false_eq_true]
    split_ifs <;> first | rfl | (exfalso; omega)
  · rw [if_pos hm] at h
    simp only [Unpack, byteAt_zero, byteAt_one, extendedLength, readMaskKey, slicePayload,
      List.length_cons, Nat.cast_add, Nat.cast_one, h1, h2, h3, h4, hfin, hop, zero_add,
      if_true, if_false, INT_MAX, hm, ne_eq, not_true_eq_false, not_false_eq_true]
    by_cases hk : (rest.length : Int) + 2 < 2 + 4
    · simp only [hk, if_true]
    · simp only [hk, if_false]
      split_ifs <;> first | rfl | (exfalso; omega)

theorem Unpack_short_16bit_big (b0 b1 x0 x1 : Byte) (rest : List Byte)
    (hfin : b0.val &&& 0x80 ≠ 0) (hop : b0.val &&& 0xf < 3) (hlen : b1.val &&& 0x7f = 126)
    (h : rest.length < (if b1.val &&& 0x80 ≠ 0 then 4 else 0) + (x0.val * 256 + x1.val)) :
    Unpack Endian.big (b0 :: b1 :: x0 :: x1 :: rest) = Except.ok [] := by
  have hx0 := x0.isLt
  have hx1 := x1.isLt
  have h0 : rest.length < 65540 := by split_ifs at h <;> omega
  have h1 : toInt32 ((rest.length : Int) + 1 + 1 + 1 + 1) = (rest.length : Int) + 4 := by
    unfold toInt32; omega
  have h4 : ¬ ((rest.length : Int) + 4 < 2) := by omega
  have h5 : ¬ ((rest.length : Int) + 4 < 2 + 2) := by omega
  have h6 : byteAt (b0 :: b1 :: x0 :: x1 :: rest) 2 = x0 := rfl
  have h7 : byteAt (b0 :: b1 :: x0 :: x1 :: rest) (2 + 1) = x1 := rfl
  have h8 : ((load16 Endian.big x0 x1 : Nat) : Int) = (x0.val : Int) * 256 + (x1.val : Int) := by
    simp [load16, beValue]
  by_cases hm : b1.val &&& 0x80 = 0
  · rw [if_neg (not_not.mpr hm)] at h
    simp only [Unpack, byteAt_zero, byteAt_one, extendedLength, readMaskKey, slicePayload,
      List.length_cons, Nat.cast_add, Nat.cast_one, h1, h4, h5, h6, h7, h8, hfin, hop, hlen,
      zero_add, if_true, if_false, INT_MAX, Nat.cast_ofNat, hm, ne_eq, not_true_eq_false,
      not_false_eq_true]
    split_ifs <;> first | rfl | (exfalso; omega)
  · rw [if_pos hm] at h
    simp only [Unpack, byteAt_zero, byteAt_one, extendedLength, readMaskKey, slicePayload,
      List.length_cons, Nat.cast_add, Nat.cast_one, h1, h4, h5, h6, h7, h8, hfin, hop, hlen,
      zero_add, if_true, if_false, INT_MAX, Nat.cast_ofNat, hm, ne_eq, not_true_eq_false,
      not_false_eq_true]
    by_cases hk : (rest.length : Int) + 4 < 2 + 2 + 4
    · simp only [hk, if_true]
    · simp only [hk, if_false]
      split_ifs <;> first | rfl | (exfalso; omega)

/-- C8, as amended: for every buffer whose header has the bit `0x80` of byte 0 set and an
opcode below 3, and which holds fewer payload bytes than the header declares (by a 7-bit
length below 126 on every target, or by the big-endian 16-bit extended length on a
big-endian target), `Unpack` returns the empty string, never a part of the payload; the
empty string is also its result for the complete zero-length frame `81 00`. -/
theorem Unpack_short_buffer :
    (∀ (e : Endian) (b0 b1 : Byte) (rest : List Byte),
      b0.val &&& 0x80 ≠ 0 → b0.val &&& 0xf < 3 → b1.val &&& 0x7f < 126 →
      rest.length < (if b1.val &&& 0x80 ≠ 0 then 4 else 0) + (b1.val &&& 0x7f) →
      Unpack e (b0 :: b1 :: rest) = Except.ok []) ∧
    (∀ (b0 b1 x0 x1 : Byte) (rest : List Byte),
      b0.val &&& 0x80 ≠ 0 → b0.val &&& 0xf < 3 → b1.val &&& 0x7f = 126 →
      rest.length < (if b1.val &&& 0x80 ≠ 0 then 4 else 0) + (x0.val * 256 + x1.val) →
      Unpack Endian.big (b0 :: b1 :: x0 :: x1 :: rest) = Except.ok []) ∧
    (∀ e : Endian, Unpack e [0x81, 0x00] = Except.ok []) :=
  ⟨Unpack_short_7bit, Unpack_short_16bit_big, fun e => by cases e <;> decide⟩

/-- C8, at the buffer `81 05 41` (five bytes declared, one held) and at the buffer
`81 7e 01 00 41 42` (256 bytes declared, two held) on a big-endian target. -/
theorem Unpack_short_buffer_witness :
    ((0x81 : Byte).val &&& 0x80 ≠ 0 ∧ (0x81 : Byte).val &&& 0xf < 3 ∧
      (0x05 : Byte).val &&& 0x7f < 126 ∧
      [(0x41 : Byte)].length < (if (0x05 : Byte).val &&& 0x80 ≠ 0 then 4 else 0)
        + ((0x05 : Byte).val &&& 0x7f) ∧
      Unpack Endian.little [0x81, 0x05, 0x41] = Except.ok []) ∧
    ((0x7e : Byte).val &&& 0x7f = 126 ∧
      [(0x41 : Byte), 0x42].length < (if (0x7e : Byte).val &&& 0x80 ≠ 0 then 4 else 0)
        + ((0x01 : Byte).val * 256 + (0x00 : Byte).val) ∧
      Unpack Endian.big [0x81, 0x7e, 0x01, 0x00, 0x41, 0x42] = Except.ok []) :=
  ⟨⟨by decide, by decide, by decide, by decide,
      Unpack_short_buffer.1 Endian.little 0x81 0x05 [0x41] (by decide) (by decide) (by decide)
        (by decide)⟩,
    ⟨by decide, by decide,
      Unpack_short_buffer.2.1 0x81 0x7e 0x01 0x00 [0x41, 0x42] (by decide) (by decide)
        (by decide) (by decide)⟩⟩

/-! ### The handshake -/

set_option maxRecDepth 1000000 in
theorem GetServerKey_sample :
    GetServerKey (bytes "dGhlIHNhbXBsZSBub25jZQ==") = bytes "s3pPLMBiTxaQ9kYGzzhZRbK+xOo=" := by
  decide

/-- C5: for the client key `dGhlIHNhbXBsZSBub25jZQ==`, `GetServerKey` returns
`s3pPLMBiTxaQ9kYGzzhZRbK+xOo=`, and for every request in which `Handshake` finds that
key, whatever the transport does, the one buffer it passes to `SE_Send` is the 101
response with that accept value. -/
theorem Handshake_sample_key :
    GetServerKey (bytes "dGhlIHNhbXBsZSBub25jZQ==") = bytes "s3pPLMBiTxaQ9kYGzzhZRbK+xOo=" ∧
      ∀ (t : Transport) (state : State) (buf : List Byte),
        scanLines (getlines buf) = bytes "dGhlIHNhbXBsZSBub25jZQ==" →
        (Handshake t state buf).2 = [bytes "HTTP/1.1 101 Switching Protocols\r\nUpgrade: websocket\r\nConnection: Upgrade\r\nSec-WebSocket-Accept: s3pPLMBiTxaQ9kYGzzhZRbK+xOo=\r\n\r\n"] := by
  refine ⟨GetServerKey_sample, ?_⟩
  intro t state buf h
  have hne : ¬ (bytes "dGhlIHNhbXBsZSBub25jZQ==" = []) := by decide
  have hr : handshakeResponse (bytes "s3pPLMBiTxaQ9kYGzzhZRbK+xOo=") = bytes "HTTP/1.1 101 Switching Protocols\r\nUpgrade: websocket\r\nConnection: Upgrade\r\nSec-WebSocket-Accept: s3pPLMBiTxaQ9kYGzzhZRbK+xOo=\r\n\r\n" := by
    decide
  unfold Handshake
  simp only [h, hne, if_false, GetServerKey_sample, hr]
  split_ifs <;> rfl

set_option maxRecDepth 1000000 in
/-- C5, at the opening request of the worked example of RFC 6455. -/
theorem Handshake_sample_key_witness :
    scanLines (getlines sampleRequest) = bytes "dGhlIHNhbXBsZSBub25jZQ==" ∧
      (Handshake sampleTransport State.CONNECTING sampleRequest).2 = [bytes "HTTP/1.1 101 Switching Protocols\r\nUpgrade: websocket\r\nConnection: Upgrade\r\nSec-WebSocket-Accept: s3pPLMBiTxaQ9kYGzzhZRbK+xOo=\r\n\r\n"] :=
  ⟨by decide, Handshake_sample_key.2 sampleTransport State.CONNECTING sampleRequest (by decide)⟩

set_option maxRecDepth 1000000 in
/-- C6: for the client key `AAAAAAAAAAAAAAAAAAAAPA==` the digest is `23 00 24 3a ...`;
`GetServerKey` returns the four characters `Iw==`, the encoding of the one byte before the
zero byte, where the encoding of the entire digest is `IwAkOrrYf49HlI0VTXTV5tqdrZM=`. -/
theorem GetServerKey_zero_byte :
    GetServerKey (bytes "AAAAAAAAAAAAAAAAAAAAPA==") = bytes "Iw==" ∧
      (sha1 (bytes "AAAAAAAAAAAAAAAAAAAAPA==" ++ UUID)).take 2 = [0x23, 0x00] ∧
      BinToBase64 (toByte 61) (sha1 (bytes "AAAAAAAAAAAAAAAAAAAAPA==" ++ UUID))
        = bytes "IwAkOrrYf49HlI0VTXTV5tqdrZM=" := by
  decide

theorem length_BinToBase64_le (pad : Byte) :
    ∀ l : List Byte, (BinToBase64 pad l).length ≤ 4 * ((l.length + 2) / 3) := by
  intro l
  refine BinToBase64.induct pad
    (fun l => (BinToBase64 pad l).length ≤ 4 * ((l.length + 2) / 3)) ?_ ?_ ?_ ?_ l
  · intro a b c rest ih
    simp only [BinToBase64, List.length_cons]
    omega
  · intro a b
    simp only [BinToBase64]; split_ifs <;> simp
  · intro a
    simp only [BinToBase64]; split_ifs <;> simp
  · simp [BinToBase64]

theorem length_cstring_append_zero (l : List Byte) :
    (cstring (l ++ [toByte 0])).length ≤ l.length := by
  induction l with
  | nil => decide
  | cons a l ih =>
    by_cases h : a = 0
    · simp [cstring, List.takeWhile, h]
    · have ih2 : (List.takeWhile (fun b => decide (b ≠ 0)) (l ++ [toByte 0])).length ≤ l.length := ih
      simp [cstring, List.takeWhile, h]
      simpa using ih2

theorem length_GetServerKey_le (cli_key : List Byte) : (GetServerKey cli_key).length ≤ 28 := by
  unfold GetServerKey
  have h1 := length_BinToBase64_le (toByte 61)
    (cstring ((sha1 (cli_key ++ UUID)).take SHA1_LEN ++ [toByte 0]))
  have h2 := length_cstring_append_zero ((sha1 (cli_key ++ UUID)).take SHA1_LEN)
  have h3 : ((sha1 (cli_key ++ UUID)).take SHA1_LEN).length ≤ 20 := by
    rw [List.length_take]; exact Nat.min_le_left _ _
  simp only at h1 h2 ⊢
  omega

theorem length_handshakeResponse (serv_key : List Byte) :
    (handshakeResponse serv_key).length = serv_key.length + 101 := by
  have h1 : (bytes "HTTP/1.1 101 Switching Protocols\r\nUpgrade: websocket\r\nConnection: Upgrade\r\nSec-WebSocket-Accept: ").length = 97 := by
    decide
  have h2 : (bytes "\r\n\r\n").length = 4 := by decide
  simp only [handshakeResponse, List.length_append, h1, h2]
  omega

theorem toInt32_length_handshakeResponse (cli_key : List Byte) :
    toInt32 ((handshakeResponse (GetServerKey cli_key)).length : Nat) =
      ((handshakeResponse (GetServerKey cli_key)).length : Int) := by
  apply toInt32_of_lt
  have := length_GetServerKey_le cli_key
  rw [length_handshakeResponse]
  omega

/-! ### The session -/

theorem state_OnWrite (t : Transport) (state : State) (sock_buf : List Byte) :
    (OnWrite t state sock_buf).state = state := by
  simp only [OnWrite]
  split_ifs <;> rfl

theorem state_Handshake (t : Transport) (state : State) (buf : List Byte)
    (h : (Handshake t state buf).1 ≠ state) :
    (Handshake t state buf).1 = State.OPEN ∧ scanLines (getlines buf) ≠ [] ∧
      t.send (handshakeResponse (GetServerKey (scanLines (getlines buf)))) =
        ((handshakeResponse (GetServerKey (scanLines (getlines buf)))).length : Int) := by
  unfold Handshake at h ⊢
  by_cases h1 : scanLines (getlines buf) = []
  · simp [h1] at h
  · by_cases h2 : t.send (handshakeResponse (GetServerKey (scanLines (getlines buf)))) =
        toInt32 ((handshakeResponse (GetServerKey (scanLines (getlines buf)))).length : Nat)
    · refine ⟨by simp [h1, h2], h1, ?_⟩
      rw [h2, toInt32_length_handshakeResponse]
    · simp [h1, h2] at h

theorem state_OnRead (e : Endian) (t : Transport) (state : State) (sock_buf : List Byte)
    (h : (OnRead e t state sock_buf).state ≠ state) :
    state = State.CONNECTING ∧ 0 < t.recv ∧
      (OnRead e t state sock_buf).state =
        (Handshake t state (t.readBuffer.take t.recv.toNat)).1 := by
  unfold OnRead at h ⊢
  by_cases h1 : t.recv = 0
  · simp [h1] at h
  · by_cases h2 : t.recv < 0
    · simp [h1, h2] at h
    · by_cases h3 : state = State.CONNECTING
      · exact ⟨h3, by omega, by simp [h1, h2, h3]⟩
      · simp only [h1, h2, h3, if_false] at h
        split at h <;> exact absurd rfl h

/-- C10: on every target, for every state, every call among `OnRead`, `OnWrite` and
`OnClose`, every argument and every transport, the state after the call differs from the
state before only when the state before was `CONNECTING`, the call was `OnRead`, bytes
were received, `Handshake` found a client key in them and `SE_Send` returned the length
of the whole response; the state after is then `OPEN`. Hence a session that is `OPEN`
is `OPEN` after any sequence of these calls. -/
theorem state_changes_only_by_handshake (e : Endian) :
    (∀ (s : State) (c : Call), step e s c ≠ s →
      s = State.CONNECTING ∧ step e s c = State.OPEN ∧
      ∃ (t : Transport) (sock_buf : List Byte), c = Call.onRead t sock_buf ∧ 0 < t.recv ∧
        scanLines (getlines (t.readBuffer.take t.recv.toNat)) ≠ [] ∧
        t.send (handshakeResponse (GetServerKey
            (scanLines (getlines (t.readBuffer.take t.recv.toNat))))) =
          ((handshakeResponse (GetServerKey
            (scanLines (getlines (t.readBuffer.take t.recv.toNat))))).length : Int)) ∧
      (∀ calls : List Call, runCalls e State.OPEN calls = State.OPEN) := by
  have key : ∀ (s : State) (c : Call), step e s c ≠ s →
      s = State.CONNECTING ∧ step e s c = State.OPEN ∧
      ∃ (t : Transport) (sock_buf : List Byte), c = Call.onRead t sock_buf ∧ 0 < t.recv ∧
        scanLines (getlines (t.readBuffer.take t.recv.toNat)) ≠ [] ∧
        t.send (handshakeResponse (GetServerKey
            (scanLines (getlines (t.readBuffer.take t.recv.toNat))))) =
          ((handshakeResponse (GetServerKey
            (scanLines (getlines (t.readBuffer.take t.recv.toNat))))).length : Int) := by
    intro s c h
    cases c with
    | onRead t sock_buf =>
      obtain ⟨h1, h2, h3⟩ := state_OnRead e t s sock_buf h
      have h4 : (Handshake t s (t.readBuffer.take t.recv.toNat)).1 ≠ s := by
        rw [← h3]; exact h
      obtain ⟨h5, h6, h7⟩ := state_Handshake t s _ h4
      exact ⟨h1, h3.trans h5, t, sock_buf, rfl, h2, h6, h7⟩
    | onWrite t sock_buf => exact absurd (state_OnWrite t s sock_buf) h
    | onClose => exact absurd rfl h
  refine ⟨key, ?_⟩
  intro calls
  induction calls with
  | nil => rfl
  | cons c cs ih =>
    have h : step e State.OPEN c = State.OPEN := by
      by_contra hne
      exact State.noConfusion (key State.OPEN c hne).1
    simp only [runCalls, h, ih]

set_option maxRecDepth 1000000 in
/-- C10, at a session in `CONNECTING` that reads the request of the worked example of
RFC 6455 over a transport that sends everything. -/
theorem state_changes_only_by_handshake_witness :
    step Endian.little State.CONNECTING (Call.onRead sampleTransport []) ≠ State.CONNECTING ∧
      step Endian.little State.CONNECTING (Call.onRead sampleTransport []) = State.OPEN :=
  ⟨by decide,
    ((state_changes_only_by_handshake Endian.little).1 State.CONNECTING
      (Call.onRead sampleTransport []) (by decide)).2.1⟩

theorem Pack_of_le (P : List Byte) (h : 65536 ≤ P.length) : Pack P = [] := by
  unfold Pack
  rw [if_neg (by omega), if_neg (by omega)]

theorem length_Pack_le (P : List Byte) : (Pack P).length ≤ P.length + 4 := by
  unfold Pack
  split_ifs <;> simp

theorem length_Pack_lt (P : List Byte) : (Pack P).length < 65540 := by
  unfold Pack
  split_ifs <;> simp <;> omega

theorem toInt32_length_Pack (P : List Byte) :
    toInt32 ((Pack P).length : Nat) = ((Pack P).length : Int) :=
  toInt32_of_lt _ (by have := length_Pack_lt P; omega)

/-- C13: for every payload and every transport, `OnWrite` on a session in `CONNECTING`
passes nothing to `SE_Send`, returns 0 and leaves the session in `CONNECTING`. -/
theorem OnWrite_connecting (t : Transport) (sock_buf : List Byte) :
    (OnWrite t State.CONNECTING sock_buf).sent = [] ∧
      (OnWrite t State.CONNECTING sock_buf).ret = Except.ok 0 ∧
      (OnWrite t State.CONNECTING sock_buf).state = State.CONNECTING := by
  simp [OnWrite]

/-- C14: for every payload and every transport, `OnWrite` on a session in `OPEN` passes
`Pack payload` to `SE_Send` once and nothing else, returns 1 if and only if `SE_Send`
returned the length of `Pack payload`, and returns -1 for every other value `SE_Send`
returned. -/
theorem OnWrite_open (t : Transport) (payload : List Byte) :
    (OnWrite t State.OPEN payload).sent = [Pack payload] ∧
      ((OnWrite t State.OPEN payload).ret = Except.ok 1 ↔
        t.send (Pack payload) = ((Pack payload).length : Int)) ∧
      (OnWrite t State.OPEN payload).ret =
        (if t.send (Pack payload) = ((Pack payload).length : Int) then Except.ok 1
          else Except.ok (-1)) := by
  have h := toInt32_length_Pack payload
  by_cases hs : t.send (Pack payload) = ((Pack payload).length : Int)
  · have hs2 : t.send (Pack payload) = toInt32 ((Pack payload).length : Nat) := by rw [h, hs]
    simp [OnWrite, hs, h]
  · have hs2 : ¬ (t.send (Pack payload) = toInt32 ((Pack payload).length : Nat)) := by
      rw [h]; exact hs
    have hO : ¬ (State.OPEN = State.CONNECTING) := by decide
    have hret : (OnWrite t State.OPEN payload).ret = Except.ok (-1) := by
      simp only [OnWrite, hO, if_false, ne_eq, hs2, not_false_eq_true, if_true]
      split_ifs <;> rfl
    have hsent : (OnWrite t State.OPEN payload).sent = [Pack payload] := by
      simp only [OnWrite, hO, if_false, ne_eq, hs2, not_false_eq_true, if_true]
      split_ifs <;> rfl
    refine ⟨hsent, ⟨fun hr => ?_, fun hr => absurd hr hs⟩, by rw [hret, if_neg hs]⟩
    rw [hret] at hr
    exact absurd hr (by decide)

/-- C16: for every payload `P` of `L < 65536` bytes, `Pack P` is the header followed by
the bytes of `P` and nothing else; the header is `81 L` when `L < 126` and
`81 7e (L div 256) (L mod 256)` otherwise, so the bit `0x80` of byte 0 is set, the opcode
is 1, the bit `0x80` of byte 1 is clear, and the length is `L + 2` or `L + 4`. -/
theorem Pack_layout (P : List Byte) (h : P.length < 65536) :
    (P.length < 126 →
      Pack P = [0x81, toByte P.length] ++ P ∧ (toByte P.length).val = P.length ∧
        (Pack P).length = P.length + 2) ∧
    (126 ≤ P.length →
      Pack P = [0x81, 126, toByte (P.length / 256), toByte (P.length % 256)] ++ P ∧
        (toByte (P.length / 256)).val = P.length / 256 ∧
        (toByte (P.length % 256)).val = P.length % 256 ∧
        (Pack P).length = P.length + 4) ∧
    (byteAt (Pack P) 0).val &&& 0x80 = 0x80 ∧ (byteAt (Pack P) 0).val &&& 0xf = 1 ∧
    (byteAt (Pack P) 1).val &&& 0x80 = 0 := by
  have h1 : P.length &&& 0xff = P.length % 256 := Nat.and_pow_two_sub_one_eq_mod P.length 8
  have h2 : P.length >>> 8 = P.length / 256 := Nat.shiftRight_eq_div_pow P.length 8
  by_cases hs : P.length < 126
  · have hb := (small_length_bits P.length hs).1
    have hP : Pack P = [0x81, toByte P.length] ++ P := by
      unfold Pack; rw [if_pos hs]; rfl
    refine ⟨fun _ => ⟨hP, ?_, ?_⟩, fun hge => absurd hs (by omega), ?_, ?_, ?_⟩
    · rw [val_toByte]; omega
    · rw [hP]; simp
    · rw [hP]; simp only [List.cons_append, byteAt_zero]; decide
    · rw [hP]; simp only [List.cons_append, byteAt_zero]; decide
    · rw [hP]; simpa [byteAt_one, val_toByte] using hb
  · have hP : Pack P = [0x81, 126, toByte (P.length / 256), toByte (P.length % 256)] ++ P := by
      unfold Pack; rw [if_neg hs, if_pos (by omega), h1, h2]; rfl
    refine ⟨fun hlt => absurd hlt hs, fun _ => ⟨hP, ?_, ?_, ?_⟩, ?_, ?_, ?_⟩
    · rw [val_toByte]; omega
    · rw [val_toByte]; omega
    · rw [hP]; simp
    · rw [hP]; simp only [List.cons_append, byteAt_zero]; decide
    · rw [hP]; simp only [List.cons_append, byteAt_zero]; decide
    · rw [hP]; simp only [List.cons_append, byteAt_one]; decide

/-- C16, at a payload of 300 zero bytes: the header is `81 7e 01 2c`. -/
theorem Pack_layout_witness :
    (List.replicate 300 (0 : Byte)).length < 65536 ∧
      Pack (List.replicate 300 0) = [0x81, 126, 0x01, 0x2c] ++ List.replicate 300 0 :=
  ⟨by rw [List.length_replicate]; decide,
    (((Pack_layout (List.replicate 300 0) (by rw [List.length_replicate]; decide)).2.1
      (by rw [List.length_replicate]; decide)).1).trans (by rw [List.length_replicate]; rfl)⟩

/-- C17: on a little-endian target `Unpack` returns the empty string for the frame
`81 7f`, the 8-byte big-endian encoding of 1, and the payload `41`: the `uint64_t` load
reads `0x0100000000000000` and the `int` keeps its low 32 bits, zero. On a big-endian
target, for the header `81 7f 00 00 00 01 00 00 00 01`, which declares `2^32 + 1` bytes,
followed by the one byte `41`, the `int` keeps 1 and `Unpack` returns that byte. -/
theorem Unpack_64bit_length :
    Unpack Endian.little ([0x81, 127] ++ be64 [(0x41 : Byte)].length ++ [0x41]) = Except.ok [] ∧
      Unpack Endian.big ([0x81, 127] ++ be64 (2 ^ 32 + 1) ++ [0x41]) = Except.ok [0x41] := by
  decide

/-- C19: for the ten bytes `81 7f ff ff ff ff ff ff ff ff` the `uint64_t` load is
`2^64 - 1` on both targets, the `int` `plen` is -1, the test `buf_len < buf_offset + plen`
is false and the string constructor is given the size -1: `Unpack` ends with
`std::length_error`. For `81 7f ff ff ff 7f 7f ff ff ff` `plen` is `INT_MAX` on both
targets and `buf_offset + plen` overflows. -/
theorem Unpack_faults :
    (Unpack Endian.little [0x81, 0x7f, 0xff, 0xff, 0xff, 0xff, 0xff, 0xff, 0xff, 0xff]
        = Except.error Fault.lengthError ∧
      Unpack Endian.big [0x81, 0x7f, 0xff, 0xff, 0xff, 0xff, 0xff, 0xff, 0xff, 0xff]
        = Except.error Fault.lengthError) ∧
    (Unpack Endian.little [0x81, 0x7f, 0xff, 0xff, 0xff, 0x7f, 0x7f, 0xff, 0xff, 0xff]
        = Except.error Fault.signedOverflow ∧
      Unpack Endian.big [0x81, 0x7f, 0xff, 0xff, 0xff, 0x7f, 0x7f, 0xff, 0xff, 0xff]
        = Except.error Fault.signedOverflow) := by
  decide

/-- C20: for a payload of 65536 zero bytes and a transport that reports every buffer as
written in full, `OnWrite` on a session in `OPEN` returns 1 and the one buffer it passed
to `SE_Send` is empty. -/
theorem OnWrite_success_without_payload :
    (OnWrite sampleTransport State.OPEN (List.replicate 65536 0)).ret = Except.ok 1 ∧
      (OnWrite sampleTransport State.OPEN (List.replicate 65536 0)).sent = [[]] := by
  have hP : Pack (List.replicate 65536 (0 : Byte)) = [] :=
    Pack_of_le _ (by rw [List.length_replicate])
  have hO : ¬ (State.OPEN = State.CONNECTING) := by decide
  have hs : sampleTransport.send [] = toInt32 (([] : List Byte).length : Nat) := by decide
  simp only [OnWrite, hO, if_false, hP, hs, ne_eq, not_true_eq_false, and_self]

/-! ### The request parse -/

theorem getlines_append_lf (l rest : List Byte) (h : (10 : Byte) ∉ l) :
    getlines (l ++ 10 :: rest) = l :: getlines rest := by
  induction l with
  | nil => simp [getlines]
  | cons c l ih =>
    have hc : ¬ (c = 10) := fun hc => h (by simp [hc])
    have hl : (10 : Byte) ∉ l := fun hl => h (List.mem_cons_of_mem _ hl)
    simp [getlines, hc, ih hl]

theorem rtrim_eq_rdropWhile (l : List Byte) : rtrim l = l.rdropWhile isSpace := rfl

theorem rtrim_prefix (l : List Byte) : ∃ ws, l = rtrim l ++ ws := by
  obtain ⟨ws, h⟩ := List.rdropWhile_prefix isSpace (l := l)
  exact ⟨ws, h.symm⟩

theorem rtrim_append_space (l : List Byte) (c : Byte) (h : isSpace c = true) :
    rtrim (l ++ [c]) = rtrim l :=
  List.rdropWhile_concat_pos isSpace l c h

theorem rtrim_append_of_blank (a b : List Byte) (h : rtrim b = []) :
    rtrim (a ++ b) = rtrim a := by
  have hb : ∀ x ∈ b.reverse, isSpace x = true := by
    intro x hx
    exact (List.rdropWhile_eq_nil_iff.mp h) x (List.mem_reverse.mp hx)
  unfold rtrim
  rw [List.reverse_append, List.dropWhile_append_of_pos hb]

theorem rtrim_append_of_not_blank (a b : List Byte) (h : rtrim b ≠ []) :
    rtrim (a ++ b) = a ++ rtrim b := by
  have hb : ¬ ((b.reverse.dropWhile isSpace).isEmpty = true) := by
    intro he
    apply h
    unfold rtrim
    rw [List.isEmpty_iff.mp he]
    rfl
  unfold rtrim
  rw [List.reverse_append, List.dropWhile_append, if_neg hb, List.reverse_append,
    List.reverse_reverse]

theorem rtrim_of_no_space (v : List Byte) (h : ∀ c ∈ v, isSpace c = false) : rtrim v = v := by
  rw [rtrim_eq_rdropWhile, List.rdropWhile_eq_self_iff]
  intro hl hp
  have := h _ (List.getLast_mem hl)
  rw [this] at hp
  exact absurd hp (by decide)

theorem findSep_cons_cons (x y : Byte) (r : List Byte) :
    findSep (x :: y :: r) =
      if x = 58 ∧ y = 32 then some 0 else (findSep (y :: r)).map (fun p => p + 1) := by
  rw [findSep]

theorem findSep_append_of_some (b : List Byte) :
    ∀ (a : List Byte) (p : Nat), findSep a = some p → findSep (a ++ b) = some p := by
  intro a
  induction a with
  | nil => intro p h; simp [findSep] at h
  | cons x r ih =>
    intro p h
    cases r with
    | nil => simp [findSep] at h
    | cons y r =>
      rw [List.cons_append, List.cons_append, findSep_cons_cons]
      rw [findSep_cons_cons] at h
      by_cases hxy : x = 58 ∧ y = 32
      · rw [if_pos hxy] at h ⊢
        exact h
      · rw [if_neg hxy] at h ⊢
        cases hq : findSep (y :: r) with
        | none => rw [hq] at h; simp at h
        | some q =>
          rw [hq] at h
          have := ih q hq
          rw [List.cons_append] at this
          rw [this]
          exact h

theorem findSep_getElem (l : List Byte) :
    ∀ p, findSep l = some p → l[p]? = some 58 ∧ l[p + 1]? = some 32 := by
  induction l with
  | nil => intro p h; simp [findSep] at h
  | cons x r ih =>
    intro p h
    cases r with
    | nil => simp [findSep] at h
    | cons y r =>
      rw [findSep_cons_cons] at h
      by_cases hxy : x = 58 ∧ y = 32
      · rw [if_pos hxy] at h
        simp only [Option.some.injEq] at h
        subst h
        simp [hxy.1, hxy.2]
      · rw [if_neg hxy] at h
        cases hq : findSep (y :: r) with
        | none => rw [hq] at h; simp at h
        | some q =>
          rw [hq] at h
          simp only [Option.map_some', Option.some.injEq] at h
          subst h
          have := ih q hq
          simpa using this

theorem findSep_isSome_of_getElem (l : List Byte) :
    ∀ p : Nat, l[p]? = some 58 → l[p + 1]? = some 32 → ∃ q, findSep l = some q := by
  induction l with
  | nil => intro p h; simp at h
  | cons x r ih =>
    intro p h1 h2
    cases r with
    | nil =>
      cases p with
      | zero => simp at h2
      | succ p => simp at h1
    | cons y r =>
      rw [findSep_cons_cons]
      by_cases hxy : x = 58 ∧ y = 32
      · exact ⟨0, by rw [if_pos hxy]⟩
      · rw [if_neg hxy]
        cases p with
        | zero =>
          simp only [List.getElem?_cons_zero, Option.some.injEq, zero_add,
            List.getElem?_cons_succ] at h1 h2
          exact absurd ⟨h1, h2⟩ hxy
        | succ p =>
          rw [List.getElem?_cons_succ] at h1 h2
          obtain ⟨q, hq⟩ := ih p h1 h2
          exact ⟨q + 1, by rw [hq]; rfl⟩

theorem findSep_le_length (l : List Byte) (p : Nat) (h : findSep l = some p) :
    p + 2 ≤ l.length := by
  have h2 := (findSep_getElem l p h).2
  by_contra hlt
  rw [List.getElem?_eq_none (by omega)] at h2
  simp at h2

theorem findSep_prefix_of_le (a b : List Byte) (p : Nat) (h : findSep (a ++ b) = some p)
    (hp : p + 2 ≤ a.length) : findSep a = some p := by
  obtain ⟨h1, h2⟩ := findSep_getElem _ p h
  rw [List.getElem?_append_left (by omega)] at h1 h2
  obtain ⟨q, hq⟩ := findSep_isSome_of_getElem a p h1 h2
  have := findSep_append_of_some b a q hq
  rw [h] at this
  rw [hq]
  exact this.symm

theorem findSep_prefix_of_lt (a b : List Byte) (p : Nat) (h : findSep (a ++ b) = some p)
    (hp : a.length < p + 2) : findSep a = none := by
  cases hq : findSep a with
  | none => rfl
  | some q =>
    have h1 := findSep_append_of_some b a q hq
    have h2 := findSep_le_length a q hq
    rw [h] at h1
    simp only [Option.some.injEq] at h1
    omega

theorem findSep_prefix_of_none (a b : List Byte) (h : findSep (a ++ b) = none) :
    findSep a = none := by
  cases hq : findSep a with
  | none => rfl
  | some q =>
    rw [findSep_append_of_some b a q hq] at h
    simp at h

theorem scanLines_cons (l : List Byte) (rest : List (List Byte)) :
    scanLines (l :: rest) =
      match findSep (rtrim l) with
      | none => scanLines rest
      | some pos =>
        if ((rtrim l).take pos).map tolower = bytes "sec-websocket-key" then
          (rtrim l).drop (pos + 2)
        else scanLines rest := by
  rw [scanLines]

theorem findSep_rtrim_of_none (l : List Byte) (h : findSep l = none) :
    findSep (rtrim l) = none := by
  obtain ⟨ws, hws⟩ := rtrim_prefix l
  exact findSep_prefix_of_none (rtrim l) ws (by rw [← hws]; exact h)

theorem findSep_rtrim_of_blank (l : List Byte) (p : Nat) (h : findSep l = some p)
    (hb : rtrim (l.drop (p + 2)) = []) : findSep (rtrim l) = none := by
  obtain ⟨ws, hws⟩ := rtrim_prefix l
  have h32 := (findSep_getElem l p h).2
  have hlen := findSep_le_length l p h
  have h1 : rtrim l = rtrim (l.take (p + 1)) := by
    have e1 : l = l.take (p + 2) ++ l.drop (p + 2) := (List.take_append_drop _ _).symm
    have e2 : l.take (p + 2) = l.take (p + 1) ++ [32] := by
      rw [List.take_succ, h32]; rfl
    calc rtrim l = rtrim (l.take (p + 2) ++ l.drop (p + 2)) := by rw [← e1]
      _ = rtrim (l.take (p + 2)) := rtrim_append_of_blank _ _ hb
      _ = rtrim (l.take (p + 1) ++ [32]) := by rw [e2]
      _ = rtrim (l.take (p + 1)) := rtrim_append_space _ _ (by decide)
  have h2 : (rtrim l).length ≤ p + 1 := by
    obtain ⟨ws2, hws2⟩ := rtrim_prefix (l.take (p + 1))
    have := congrArg List.length hws2
    rw [List.length_append, List.length_take] at this
    rw [h1]
    omega
  exact findSep_prefix_of_lt (rtrim l) ws p (by rw [← hws]; exact h) (by omega)

theorem findSep_rtrim_of_not_blank (l : List Byte) (p : Nat) (h : findSep l = some p)
    (hb : rtrim (l.drop (p + 2)) ≠ []) :
    findSep (rtrim l) = some p ∧ (rtrim l).take p = l.take p ∧
      (rtrim l).drop (p + 2) = rtrim (l.drop (p + 2)) := by
  obtain ⟨ws, hws⟩ := rtrim_prefix l
  have hlen := findSep_le_length l p h
  have hl2 : (l.take (p + 2)).length = p + 2 := by rw [List.length_take]; omega
  have h1 : rtrim l = l.take (p + 2) ++ rtrim (l.drop (p + 2)) := by
    have e1 : l = l.take (p + 2) ++ l.drop (p + 2) := (List.take_append_drop _ _).symm
    calc rtrim l = rtrim (l.take (p + 2) ++ l.drop (p + 2)) := by rw [← e1]
      _ = l.take (p + 2) ++ rtrim (l.drop (p + 2)) := rtrim_append_of_not_blank _ _ hb
  refine ⟨?_, ?_, ?_⟩
  · apply findSep_prefix_of_le (rtrim l) ws p (by rw [← hws]; exact h)
    rw [h1, List.length_append]
    omega
  · rw [h1, List.take_append_of_le_length (by omega), List.take_take]
    congr 1
    omega
  · rw [h1]
    exact List.drop_left' hl2

theorem scanLines_eq_referenceScanSkipBlank (ls : List (List Byte)) :
    (if scanLines ls = [] then none else some (scanLines ls)) = referenceScanSkipBlank ls := by
  induction ls with
  | nil => simp [scanLines, referenceScanSkipBlank]
  | cons l rest ih =>
    rw [scanLines_cons, referenceScanSkipBlank]
    cases h : findSep l with
    | none =>
      rw [findSep_rtrim_of_none l h]
      exact ih
    | some p =>
      by_cases hb : rtrim (l.drop (p + 2)) = []
      · rw [findSep_rtrim_of_blank l p h hb]
        simp only [hb, if_true]
        exact ih
      · obtain ⟨h1, h2, h3⟩ := findSep_rtrim_of_not_blank l p h hb
        rw [h1]
        simp only [h2, h3, hb, if_false]
        by_cases hk : (l.take p).map tolower = bytes "sec-websocket-key"
        · simp only [hk, if_true, hb, if_false]
        · simp only [hk, if_false]
          exact ih

theorem referenceScanSkipBlank_append_nil (ls : List (List Byte)) :
    referenceScanSkipBlank (ls ++ [[]]) = referenceScanSkipBlank ls := by
  induction ls with
  | nil => simp [referenceScanSkipBlank, findSep]
  | cons l rest ih =>
    rw [List.cons_append, referenceScanSkipBlank, referenceScanSkipBlank, ih]

theorem referenceLines_eq (buf : List Byte) :
    referenceLines buf = getlines buf ∨ referenceLines buf = getlines buf ++ [[]] := by
  induction buf with
  | nil => right; rfl
  | cons c cs ih =>
    by_cases hc : c = 10
    · rcases ih with h | h
      · left; simp [referenceLines, getlines, hc, h]
      · right; simp [referenceLines, getlines, hc, h]
    · rcases ih with h | h
      · left; simp [referenceLines, getlines, hc, h]
      · cases hg : getlines cs with
        | nil =>
          left
          rw [hg] at h
          simp [referenceLines, getlines, hc, h, hg]
        | cons l ls =>
          right
          rw [hg] at h
          simp [referenceLines, getlines, hc, h, hg]

/-- C18, as amended: for every request buffer the parse of `Handshake` equals the
reference that splits the buffer into lines and, for each line in order, splits it once
at the first `": "` into name and value, skips the lines without that separator and the
lines whose value is empty once its trailing whitespace is trimmed, and at the first
remaining line whose name is `sec-websocket-key` up to case returns the trimmed value
and consults no later line; no key is found exactly when the reference has none. -/
theorem clientKey_eq_reference (buf : List Byte) :
    clientKey buf = referenceScanSkipBlank (referenceLines buf) := by
  have h := scanLines_eq_referenceScanSkipBlank (getlines buf)
  unfold clientKey
  rcases referenceLines_eq buf with hr | hr
  · rw [hr]; exact h
  · rw [hr, referenceScanSkipBlank_append_nil]; exact h

theorem scanLines_skip (raw l : List Byte) (rest : List (List Byte)) (hr : rtrim raw = rtrim l)
    (h : headerName l ≠ some (bytes "sec-websocket-key")) :
    scanLines (raw :: rest) = scanLines rest := by
  rw [scanLines_cons, hr]
  cases hq : findSep (rtrim l) with
  | none => rfl
  | some p =>
    obtain ⟨ws, hws⟩ := rtrim_prefix l
    have hl : findSep l = some p := by
      rw [hws]; exact findSep_append_of_some ws (rtrim l) p hq
    have hlen := findSep_le_length (rtrim l) p hq
    have ht : (rtrim l).take p = l.take p := by
      conv_rhs => rw [hws]
      rw [List.take_append_of_le_length (by omega)]
    have hne : ¬ (((rtrim l).take p).map tolower = bytes "sec-websocket-key") := by
      intro hk
      apply h
      rw [headerName, hl, Option.map_some', ← ht, hk]
    simp only [hne, if_false]

theorem scanLines_of_no_key (ls : List (List Byte))
    (h : ∀ l ∈ ls, headerName l ≠ some (bytes "sec-websocket-key")) : scanLines ls = [] := by
  induction ls with
  | nil => rfl
  | cons l rest ih =>
    rw [scanLines_skip l l rest rfl (h l (List.mem_cons_self _ _))]
    exact ih (fun x hx => h x (List.mem_cons_of_mem _ hx))

theorem mem_referenceLines_of_mem_getlines (buf l : List Byte) (h : l ∈ getlines buf) :
    l ∈ referenceLines buf := by
  rcases referenceLines_eq buf with hr | hr
  · rw [hr]; exact h
  · rw [hr]; exact List.mem_append_left _ h

theorem getlines_crlfLines (pre : List (List Byte)) (tail : List Byte)
    (h : ∀ l ∈ pre, (10 : Byte) ∉ l) :
    getlines (crlfLines pre ++ tail) = pre.map (fun l => l ++ [13]) ++ getlines tail := by
  induction pre with
  | nil => rfl
  | cons l rest ih =>
    have hl : (10 : Byte) ∉ l ++ [13] := by
      intro hm
      rcases List.mem_append.mp hm with h1 | h1
      · exact h l (List.mem_cons_self _ _) h1
      · simp at h1
    have e : crlfLines (l :: rest) ++ tail = (l ++ [13]) ++ 10 :: (crlfLines rest ++ tail) := by
      simp [crlfLines]
    rw [e, getlines_append_lf _ _ hl, ih (fun x hx => h x (List.mem_cons_of_mem _ hx))]
    rfl

theorem scanLines_skip_crlf (pre : List (List Byte)) (tail : List (List Byte))
    (h : ∀ l ∈ pre, headerName l ≠ some (bytes "sec-websocket-key")) :
    scanLines (pre.map (fun l => l ++ [13]) ++ tail) = scanLines tail := by
  induction pre with
  | nil => rfl
  | cons l rest ih =>
    rw [List.map_cons, List.cons_append,
      scanLines_skip (l ++ [13]) l _ (rtrim_append_space l 13 (by decide))
        (h l (List.mem_cons_self _ _))]
    exact ih (fun x hx => h x (List.mem_cons_of_mem _ hx))

theorem not_mem_of_map_tolower (name : List Byte) (d : Byte) (hd : tolower d = d)
    (h : d ∉ name.map tolower) : d ∉ name := by
  intro hm
  apply h
  rw [← hd]
  exact List.mem_map_of_mem tolower hm

theorem findSep_name_sep (v : List Byte) :
    ∀ name : List Byte, (58 : Byte) ∉ name → findSep (name ++ 58 :: 32 :: v) = some name.length := by
  intro name
  induction name with
  | nil => intro _; rw [List.nil_append, findSep_cons_cons]; simp
  | cons x r ih =>
    intro h
    have hx : ¬ (x = 58) := fun hx => h (by simp [hx])
    have hr : (58 : Byte) ∉ r := fun hr => h (List.mem_cons_of_mem _ hr)
    have ihr := ih hr
    cases r with
    | nil =>
      rw [List.nil_append] at ihr
      rw [List.cons_append, List.nil_append, findSep_cons_cons, ihr]
      simp [hx]
    | cons y r =>
      rw [List.cons_append] at ihr
      rw [List.cons_append, List.cons_append, findSep_cons_cons, ihr]
      simp [hx]

/-- C15: for every request buffer made of lines ending in `"\r\n"` (lines without a line
feed) followed by a line `name: v`, where `name` is `Sec-WebSocket-Key` up to letter case
and `v` is not empty and has none of the characters `" \n\r\t"`, when no earlier line
has that header name, `Handshake` extracts exactly `v` as the client key, whatever the
earlier lines and the bytes after the line are. -/
theorem clientKey_key_line (pre : List (List Byte)) (name v post : List Byte)
    (hpre : ∀ l ∈ pre, (10 : Byte) ∉ l)
    (hearlier : ∀ l ∈ pre, headerName l ≠ some (bytes "sec-websocket-key"))
    (hname : name.map tolower = bytes "sec-websocket-key")
    (hv : v ≠ []) (hws : ∀ c ∈ v, isSpace c = false) :
    clientKey (crlfLines pre ++ (name ++ bytes ": " ++ v ++ bytes "\r\n") ++ post) = some v := by
  have h58 : (58 : Byte) ∉ name :=
    not_mem_of_map_tolower name 58 (by decide) (by rw [hname]; decide)
  have h10 : (10 : Byte) ∉ name :=
    not_mem_of_map_tolower name 10 (by decide) (by rw [hname]; decide)
  have hv10 : (10 : Byte) ∉ v := fun hm => absurd (hws 10 hm) (by decide)
  have hline : (10 : Byte) ∉ name ++ 58 :: 32 :: v ++ [13] := by
    intro hm
    simp only [List.mem_append, List.mem_cons, List.mem_singleton, List.not_mem_nil,
      or_false] at hm
    rcases hm with (hm | hm | hm | hm) | hm
    · exact h10 hm
    · exact absurd hm (by decide)
    · exact absurd hm (by decide)
    · exact hv10 hm
    · exact absurd hm (by decide)
  have e : crlfLines pre ++ (name ++ bytes ": " ++ v ++ bytes "\r\n") ++ post =
      crlfLines pre ++ ((name ++ 58 :: 32 :: v ++ [13]) ++ 10 :: post) := by
    have b1 : bytes ": " = [58, 32] := by decide
    have b2 : bytes "\r\n" = [13, 10] := by decide
    rw [b1, b2]
    simp
  have hrv : rtrim v = v := rtrim_of_no_space v hws
  have hr : rtrim (name ++ 58 :: 32 :: v ++ [13]) = name ++ 58 :: 32 :: v := by
    rw [rtrim_append_space _ 13 (by decide)]
    have e2 : name ++ 58 :: 32 :: v = (name ++ [58, 32]) ++ v := by simp
    rw [e2, rtrim_append_of_not_blank _ _ (by rw [hrv]; exact hv), hrv]
  have hscan : scanLines ((name ++ 58 :: 32 :: v ++ [13]) :: getlines post) = v := by
    rw [scanLines_cons, hr, findSep_name_sep v name h58]
    simp only [List.take_left, hname, if_true]
    have e3 : name ++ 58 :: 32 :: v = (name ++ [58, 32]) ++ v := by simp
    rw [e3]
    exact List.drop_left' (by simp)
  unfold clientKey
  rw [e, getlines_crlfLines pre _ hpre, getlines_append_lf _ _ hline,
    scanLines_skip_crlf pre _ hearlier, hscan]
  simp [hv]

set_option maxRecDepth 1000000 in
/-- C15, at the first lines of the request of the worked example of RFC 6455. -/
theorem clientKey_key_line_witness :
    ((∀ l ∈ [bytes "GET /chat HTTP/1.1", bytes "Host: server.example.com"], (10 : Byte) ∉ l) ∧
      (∀ l ∈ [bytes "GET /chat HTTP/1.1", bytes "Host: server.example.com"],
        headerName l ≠ some (bytes "sec-websocket-key")) ∧
      (bytes "Sec-WebSocket-Key").map tolower = bytes "sec-websocket-key" ∧
      bytes "dGhlIHNhbXBsZSBub25jZQ==" ≠ [] ∧
      (∀ c ∈ bytes "dGhlIHNhbXBsZSBub25jZQ==", isSpace c = false)) ∧
    clientKey (crlfLines [bytes "GET /chat HTTP/1.1", bytes "Host: server.example.com"] ++
      (bytes "Sec-WebSocket-Key" ++ bytes ": " ++ bytes "dGhlIHNhbXBsZSBub25jZQ==" ++ bytes "\r\n")
      ++ bytes "Origin: http://example.com\r\n\r\n") = some (bytes "dGhlIHNhbXBsZSBub25jZQ==") :=
  ⟨⟨by decide, by decide, by decide, by decide, by decide⟩,
    clientKey_key_line [bytes "GET /chat HTTP/1.1", bytes "Host: server.example.com"]
      (bytes "Sec-WebSocket-Key") (bytes "dGhlIHNhbXBsZSBub25jZQ==")
      (bytes "Origin: http://example.com\r\n\r\n")
      (by decide) (by decide) (by decide) (by decide) (by decide)⟩

set_option maxRecDepth 1000000 in
/-- C18, as stated, fails for the buffer `"Sec-WebSocket-Key: \r\nSec-WebSocket-Key: abc\r\n"`:
the reference returns the empty value of the first line, `Handshake` trims the line before
it looks for the separator, skips the first line and takes `abc` from the second. For
`"Sec-WebSocket-Key: \r\n"` alone the reference finds the header and `Handshake` reports
that no key was provided. -/
theorem clientKey_ne_ParseClientKey :
    (clientKey (bytes "Sec-WebSocket-Key: \r\nSec-WebSocket-Key: abc\r\n") = some (bytes "abc") ∧
      ParseClientKey (bytes "Sec-WebSocket-Key: \r\nSec-WebSocket-Key: abc\r\n") = some []) ∧
    (clientKey (bytes "Sec-WebSocket-Key: \r\n") = none ∧
      ParseClientKey (bytes "Sec-WebSocket-Key: \r\n") = some []) := by
  decide

/-- C12: a new session is in `CONNECTING`, and for every received chunk in which no line
has the header name `sec-websocket-key`, on every target and for every transport,
`OnRead` leaves the session in `CONNECTING`, `Handshake` logs that the client key was not
provided, nothing is passed to `SE_Send`, and `OnRead` returns 0. -/
theorem OnRead_without_key (e : Endian) (t : Transport) (sock_buf : List Byte)
    (hrecv : 0 < t.recv)
    (hno : ∀ l ∈ referenceLines (t.readBuffer.take t.recv.toNat),
      headerName l ≠ some (bytes "sec-websocket-key")) :
    WebSocketSession = State.CONNECTING ∧
      (OnRead e t WebSocketSession sock_buf).state = State.CONNECTING ∧
      HandshakeLog t (t.readBuffer.take t.recv.toNat) =
        ["WebSocketSession::Handshake(): Client key was not provided"] ∧
      (OnRead e t WebSocketSession sock_buf).sent = [] ∧
      (OnRead e t WebSocketSession sock_buf).ret = Except.ok 0 := by
  have hscan : scanLines (getlines (t.readBuffer.take t.recv.toNat)) = [] :=
    scanLines_of_no_key _ (fun l hl => hno l (mem_referenceLines_of_mem_getlines _ l hl))
  have h1 : ¬ (t.recv = 0) := by omega
  have h2 : ¬ (t.recv < 0) := by omega
  have hH : Handshake t State.CONNECTING (t.readBuffer.take t.recv.toNat) =
      (State.CONNECTING, []) := by
    simp [Handshake, hscan]
  refine ⟨rfl, ?_, ?_, ?_, ?_⟩
  · simp [OnRead, WebSocketSession, reset, h1, h2, hH]
  · simp [HandshakeLog, hscan]
  · simp [OnRead, WebSocketSession, reset, h1, h2, hH]
  · simp [OnRead, WebSocketSession, reset, h1, h2]

set_option maxRecDepth 1000000 in
/-- C12, at a request without the key header. -/
theorem OnRead_without_key_witness :
    (0 < (transportOf (bytes "GET /chat HTTP/1.1\r\nHost: server.example.com\r\n\r\n")).recv ∧
      ∀ l ∈ referenceLines
          ((transportOf (bytes "GET /chat HTTP/1.1\r\nHost: server.example.com\r\n\r\n")).readBuffer.take
            (transportOf (bytes "GET /chat HTTP/1.1\r\nHost: server.example.com\r\n\r\n")).recv.toNat),
        headerName l ≠ some (bytes "sec-websocket-key")) ∧
    (OnRead Endian.little
      (transportOf (bytes "GET /chat HTTP/1.1\r\nHost: server.example.com\r\n\r\n"))
      WebSocketSession []).state = State.CONNECTING :=
  ⟨⟨by decide, by decide⟩,
    (OnRead_without_key Endian.little
      (transportOf (bytes "GET /chat HTTP/1.1\r\nHost: server.example.com\r\n\r\n")) []
      (by decide) (by decide)).2.1⟩

set_option maxRecDepth 1000000 in
/-- C11: a session in `CONNECTING` that reads the request of the worked example of
RFC 6455 over a transport that reports every send as complete is `OPEN` afterwards; on
the next `OnRead`, for the received chunk `81 7f ff ff ff ff ff ff ff ff`, `OnRead` does
not return 1 and does not assign `sock_buf`: it ends with the `std::length_error` of
`Unpack`, on both targets. -/
theorem OnRead_open_fault :
    (OnRead Endian.little sampleTransport State.CONNECTING []).state = State.OPEN ∧
    (OnRead Endian.little
      (transportOf [0x81, 0x7f, 0xff, 0xff, 0xff, 0xff, 0xff, 0xff, 0xff, 0xff])
      (OnRead Endian.little sampleTransport State.CONNECTING []).state []).ret
        = Except.error Fault.lengthError ∧
    (OnRead Endian.big
      (transportOf [0x81, 0x7f, 0xff, 0xff, 0xff, 0xff, 0xff, 0xff, 0xff, 0xff])
      (OnRead Endian.big sampleTransport State.CONNECTING []).state []).ret
        = Except.error Fault.lengthError := by
  decide

/-- For a session in `CONNECTING`, when `Handshake` finds a client key in the received
chunk and `SE_Send` returns the length of the whole response, the session is `OPEN` after
`OnRead`; and on the next `OnRead`, for every received chunk for which `Unpack` returns a
string, `sock_buf` is set to that string, 1 is returned and the session stays `OPEN`. -/
theorem OnRead_handshake_then_frames (e : Endian) (t : Transport) (sock_buf k : List Byte)
    (hrecv : 0 < t.recv)
    (hkey : clientKey (t.readBuffer.take t.recv.toNat) = some k)
    (hsend : t.send (handshakeResponse (GetServerKey k)) =
      ((handshakeResponse (GetServerKey k)).length : Int)) :
    (OnRead e t State.CONNECTING sock_buf).state = State.OPEN ∧
      ∀ (t2 : Transport) (sb2 r : List Byte), 0 < t2.recv →
        Unpack e (t2.readBuffer.take t2.recv.toNat) = Except.ok r →
        (OnRead e t2 (OnRead e t State.CONNECTING sock_buf).state sb2).sock_buf = r ∧
        (OnRead e t2 (OnRead e t State.CONNECTING sock_buf).state sb2).ret = Except.ok 1 ∧
        (OnRead e t2 (OnRead e t State.CONNECTING sock_buf).state sb2).state = State.OPEN := by
  have hk : scanLines (getlines (t.readBuffer.take t.recv.toNat)) = k ∧ k ≠ [] := by
    unfold clientKey at hkey
    by_cases hnil : scanLines (getlines (t.readBuffer.take t.recv.toNat)) = []
    · simp [hnil] at hkey
    · simp only [hnil, if_false, Option.some.injEq] at hkey
      exact ⟨hkey, by rw [← hkey]; exact hnil⟩
  have h1 : ¬ (t.recv = 0) := by omega
  have h2 : ¬ (t.recv < 0) := by omega
  have hs : t.send (handshakeResponse (GetServerKey k)) =
      toInt32 ((handshakeResponse (GetServerKey k)).length : Nat) := by
    rw [toInt32_length_handshakeResponse]; exact hsend
  have hopen : (OnRead e t State.CONNECTING sock_buf).state = State.OPEN := by
    simp [OnRead, h1, h2, Handshake, hk.1, hk.2, hs]
  refine ⟨hopen, ?_⟩
  intro t2 sb2 r hr2 hU
  have h3 : ¬ (t2.recv = 0) := by omega
  have h4 : ¬ (t2.recv < 0) := by omega
  have hO : ¬ (State.OPEN = State.CONNECTING) := by decide
  rw [hopen]
  simp [OnRead, h3, h4, hO, hU]

set_option maxRecDepth 1000000 in
/-- The handshake of the worked example of RFC 6455 followed by the masked text frame of
`Hello`. -/
theorem OnRead_handshake_then_frames_witness :
    (0 < sampleTransport.recv ∧
      clientKey (sampleTransport.readBuffer.take sampleTransport.recv.toNat) =
        some (bytes "dGhlIHNhbXBsZSBub25jZQ==")) ∧
    (OnRead Endian.little sampleTransport State.CONNECTING []).state = State.OPEN ∧
    (OnRead Endian.little
      (transportOf [0x81, 0x85, 0x37, 0xfa, 0x21, 0x3d, 0x7f, 0x9f, 0x4d, 0x51, 0x58])
      (OnRead Endian.little sampleTransport State.CONNECTING []).state []).sock_buf
        = bytes "Hello" :=
  ⟨⟨by decide, by decide⟩,
    (OnRead_handshake_then_frames Endian.little sampleTransport []
      (bytes "dGhlIHNhbXBsZSBub25jZQ==") (by decide) (by decide) rfl).1,
    ((OnRead_handshake_then_frames Endian.little sampleTransport []
      (bytes "dGhlIHNhbXBsZSBub25jZQ==") (by decide) (by decide) rfl).2
      (transportOf [0x81, 0x85, 0x37, 0xfa, 0x21, 0x3d, 0x7f, 0x9f, 0x4d, 0x51, 0x58])
      [] (bytes "Hello") (by decide) (by decide)).1⟩

end WebSocket
